import Mathlib

/-!
Verification of the pointer-ripple core of the Carbon-Chunk repository.

The repository is a three.js model viewer whose interesting logic is
(a) a fragment-shader "ripple field" (an area mask times a Gaussian ring,
scaled by an intensity uniform), duplicated across several revisions, and
(b) a pointer-move handler that raycasts the scene and routes the hit UV
to exactly one mesh's material uniforms.

Shader floats are embedded as real numbers; GPU screen-space derivatives
(`fwidth`) are passed as explicit nonnegative band parameters since they
are rasterizer inputs.  The pointer/uniform state machine and the uniform
override merge are embedded over `ℚ` so they stay decidable.
-/

namespace CarbonChunk

/-! ## GLSL primitives -/

noncomputable section ShaderMath

/-- GLSL `clamp(x, lo, hi) = min(max(x, lo), hi)`. -/
def glClamp (x lo hi : ℝ) : ℝ := min (max x lo) hi

/-- GLSL `smoothstep(e0, e1, x)`: cubic Hermite interpolation of the clamped
normalized position of `x` between the two edges. -/
def smoothstep (e0 e1 x : ℝ) : ℝ :=
  let t := glClamp ((x - e0) / (e1 - e0)) 0 1
  t * t * (3 - 2 * t)

/-- GLSL `mix(a, b, t) = a * (1 - t) + b * t`. -/
def glMix (a b t : ℝ) : ℝ := a * (1 - t) + b * t

/-- GLSL `mod(x, y) = x - y * floor(x / y)`. -/
def glMod (x y : ℝ) : ℝ := x - y * (⌊x / y⌋ : ℤ)

/-- GLSL `fract(x) = x - floor(x)`. -/
def glFract (x : ℝ) : ℝ := x - (⌊x⌋ : ℤ)

/-- GLSL `length(a - b)` for 2-vectors: the Euclidean distance between two
UV coordinates. -/
def uvDist (a b : ℝ × ℝ) : ℝ :=
  Real.sqrt ((a.1 - b.1) ^ 2 + (a.2 - b.2) ^ 2)

/-! ## The ripple field of `src/main.js` (also `src/unnamed/part_005`) -/

/-- `radialMask(d, r)` from the fragment shader of `src/main.js`:
`1.0 - smoothstep(r - w, r + w, d)` where `w = fwidth(d) * 2.0` is the
anti-aliasing band, passed here as the explicit parameter `w`. -/
def radialMask (d r w : ℝ) : ℝ := 1 - smoothstep (r - w) (r + w) d

/-- The `1e-4` floor applied to `sigma` before division in `gaussianRing`
(`max(sigma, 1e-4)` in the source). -/
def sigmaEps : ℝ := 1 / 10000

/-- `rc = t * speed` from `gaussianRing` in `src/main.js` and in
`src/unnamed/part_005`: the unwrapped ring center radius. -/
def ringCenterRadius (t speed : ℝ) : ℝ := t * speed

/-- `gaussianRing(dist, sigma, t, speed)` from `src/main.js`: a 50/50 blend
of two Gaussians centered at `rc = t * speed`, one with deviation
`max(sigma, 1e-4)` and one widened by `fw = fwidth(dist) * 1.5` (passed
here as the explicit parameter `fw`). -/
def gaussianRing (dist sigma t speed fw : ℝ) : ℝ :=
  let rc := ringCenterRadius t speed
  let x := (dist - rc) / max sigma sigmaEps
  let g := Real.exp (-0.5 * (x * x))
  let x2 := (dist - rc) / max (sigma + fw) sigmaEps
  let g2 := Real.exp (-0.5 * (x2 * x2))
  glMix g g2 0.5

/-- The ripple-relevant uniforms shared by the `src/main.js` and
`src/unnamed/part_005` fragment shaders. -/
structure FragUniforms where
  u_time : ℝ
  u_mouse : ℝ × ℝ
  u_radius : ℝ
  u_sigma : ℝ
  u_speed : ℝ
  u_intensity : ℝ
  u_baseColor : ℝ × ℝ × ℝ
  u_rippleColor : ℝ × ℝ × ℝ

/-- `amt = area * ring * u_intensity` computed by the fragment main of
`src/main.js` in normal mode (`u_mode == 0`), at varying `vUv`.  `wA` and
`wR` are the `fwidth` bands of the mask and of the ring. -/
def mainFragAmt (u : FragUniforms) (vUv : ℝ × ℝ) (wA wR : ℝ) : ℝ :=
  let d := uvDist vUv u.u_mouse
  radialMask d u.u_radius wA * gaussianRing d u.u_sigma u.u_time u.u_speed wR *
    u.u_intensity

/-- Componentwise `mix` of two RGB colors. -/
def mix3 (a b : ℝ × ℝ × ℝ) (t : ℝ) : ℝ × ℝ × ℝ :=
  (glMix a.1 b.1 t, glMix a.2.1 b.2.1 t, glMix a.2.2 b.2.2 t)

/-- `color = mix(u_baseColor, u_rippleColor, amt)` from `src/main.js`. -/
def mainFragColor (u : FragUniforms) (vUv : ℝ × ℝ) (wA wR : ℝ) : ℝ × ℝ × ℝ :=
  mix3 u.u_baseColor u.u_rippleColor (mainFragAmt u vUv wA wR)

/-- Ripple amount of the fragment main in the second revision inside
`src/unnamed/part_005`: the shader first hides the effect when
`u_mouse.x < 0.0` (returning the base color, i.e. ripple amount `0`) and
otherwise computes `amount = area * ring * u_intensity`. -/
def part005FragAmt (u : FragUniforms) (vUv : ℝ × ℝ) (wA wR : ℝ) : ℝ :=
  if u.u_mouse.1 < 0 then 0
  else
    let d := uvDist vUv u.u_mouse
    radialMask d u.u_radius wA * gaussianRing d u.u_sigma u.u_time u.u_speed wR *
      u.u_intensity

/-- Output color of the fragment main in the second revision inside
`src/unnamed/part_005`. -/
def part005FragColor (u : FragUniforms) (vUv : ℝ × ℝ) (wA wR : ℝ) : ℝ × ℝ × ℝ :=
  if u.u_mouse.1 < 0 then u.u_baseColor
  else mix3 u.u_baseColor u.u_rippleColor (part005FragAmt u vUv wA wR)

/-! ## The wrapped revisions -/

/-- `ringRadius = mod(u_time * u_speed, u_radius)` from the fragment main of
the first revision in `src/src/shaders/overlayRipple.ts`: the pulse radius
wrapped modulo the area radius. -/
def overlayRingRadius (t speed radius : ℝ) : ℝ := glMod (t * speed) radius

/-- `ringIntensity = 1.0 - smoothstep(0.0, ringWidth, abs(dist - ringRadius))`
from the first revision in `src/src/shaders/overlayRipple.ts`
(`ringWidth = u_sigma`). -/
def overlayRingIntensity (t speed radius sigma dist : ℝ) : ℝ :=
  1 - smoothstep 0 sigma |dist - overlayRingRadius t speed radius|

/-- `mask = 1.0 - smoothstep(u_radius - 0.05, u_radius, dist)` from the first
revision in `src/src/shaders/overlayRipple.ts`. -/
def overlayFrag1Mask (radius dist : ℝ) : ℝ :=
  1 - smoothstep (radius - 1 / 20) radius dist

/-- `finalIntensity = ringIntensity * fadeFactor * mask * u_intensity * 5.0`
from the fragment main of the first revision in
`src/src/shaders/overlayRipple.ts`, where
`fadeFactor = 1.0 - ringRadius / u_radius` and `dist = length(vUv - u_mouse)`. -/
def overlayFrag1Intensity (t speed radius sigma intensity : ℝ)
    (vUv mouse : ℝ × ℝ) : ℝ :=
  let dist := uvDist vUv mouse
  let ringRadius := overlayRingRadius t speed radius
  let ringIntensity := overlayRingIntensity t speed radius sigma dist
  let fadeFactor := 1 - ringRadius / radius
  let mask := overlayFrag1Mask radius dist
  ringIntensity * fadeFactor * mask * intensity * 5

/-- `rc = fract(t * speed) * 0.7` from `gaussianRing` in the second revision
inside `src/unnamed/part_002` ("keeps the ring on-mesh forever"). -/
def part002RingCenter (t speed : ℝ) : ℝ := glFract (t * speed) * (7 / 10)

/-- `gaussianRing` of the second revision inside `src/unnamed/part_002`:
identical to the `src/main.js` ring except that the center radius is the
wrapped `fract(t * speed) * 0.7`. -/
def gaussianRingWrap (dist sigma t speed fw : ℝ) : ℝ :=
  let rc := part002RingCenter t speed
  let x := (dist - rc) / max sigma sigmaEps
  let g := Real.exp (-0.5 * (x * x))
  let x2 := (dist - rc) / max (sigma + fw) sigmaEps
  let g2 := Real.exp (-0.5 * (x2 * x2))
  glMix g g2 0.5

/-- `amt = area * ring * u_intensity` in the UV path of the fragment main of
the second revision inside `src/unnamed/part_002`. -/
def part002FragAmt (u : FragUniforms) (vUv : ℝ × ℝ) (wA wR : ℝ) : ℝ :=
  let d := uvDist vUv u.u_mouse
  radialMask d u.u_radius wA *
    gaussianRingWrap d u.u_sigma u.u_time u.u_speed wR * u.u_intensity

/-- Componentwise scaling of an RGB color by a scalar. -/
def scale3 (c : ℝ × ℝ × ℝ) (s : ℝ) : ℝ × ℝ × ℝ :=
  (c.1 * s, c.2.1 * s, c.2.2 * s)

/-- `gl_FragColor = vec4(u_rippleColor * amt, amt)`: the RGB part of the
output of the second revision inside `src/unnamed/part_002`. -/
def part002FragColor (u : FragUniforms) (vUv : ℝ × ℝ) (wA wR : ℝ) : ℝ × ℝ × ℝ :=
  scale3 u.u_rippleColor (part002FragAmt u vUv wA wR)

end ShaderMath

/-- The three.js blending modes used by the repository's materials. -/
inductive BlendingMode where
  | NormalBlending : BlendingMode
  | AdditiveBlending : BlendingMode
deriving DecidableEq

/-- The `ShaderMaterial` options relevant to compositing. -/
structure MaterialConfig where
  transparent : Bool
  depthWrite : Bool
  depthTest : Bool
  blending : BlendingMode
deriving DecidableEq

/-- `ShaderMaterial` options of the second revision inside
`src/unnamed/part_002`: `transparent: true, depthWrite: false,
depthTest: false, blending: THREE.AdditiveBlending`. -/
def part002Material : MaterialConfig :=
  { transparent := true
    depthWrite := false
    depthTest := false
    blending := BlendingMode.AdditiveBlending }

/-! ## The pointer-move locate step (`onPointerMove` in `src/main.js`)

Embedded over `ℚ`.  An `Entry` is one element of the module-level `entries`
array: a mesh identity together with the `u_mouse` uniform of its cloned
material.  A `Hit` is one element of the list returned by
`raycaster.intersectObjects`, carrying the hit object's identity and the
optional interpolated UV (`hit.uv ?? null`).  Ray intersection itself is
delegated to the rendering library, so it enters the model as an abstract
function from the registered mesh ids and the pointer ray to a hit list. -/

/-- One element of the `entries` registry of `src/main.js`:
`{ mesh, mat }`, restricted to the mesh identity and the `u_mouse` uniform
that `onPointerMove` writes. -/
structure Entry where
  meshId : ℕ
  mouse : ℚ × ℚ
deriving DecidableEq

/-- One raycast intersection: the hit object's identity and its optional
surface UV. -/
structure Hit where
  objId : ℕ
  uv : Option (ℚ × ℚ)
deriving DecidableEq

/-- The shader-level reading of the `u_mouse` uniform: values with a
negative first component — the `(-10, -10)` sentinel written on a miss —
mean "no active ripple center" (`part_005`: `u_mouse.x < 0.0` hides the
effect; `overlayRipple.ts`: `center.x >= 0.0` gates the UV path). -/
def activeCenter (m : ℚ × ℚ) : Option (ℚ × ℚ) :=
  if m.1 < 0 then none else some m

/-- `for (const e of entries) e.mat.uniforms.u_mouse.value.set(-10, -10)`:
hide the ripple on every entry. -/
def hideAll (es : List Entry) : List Entry :=
  es.map fun e => { e with mouse := (-10, -10) }

/-- `entries.find(e => e.mesh === hit.object)` followed by
`entry.mat.uniforms.u_mouse.value.set(uv.x, uv.y)`: set the mouse UV on the
first entry owning the hit mesh, leaving everything else unchanged. -/
def setMouseFirst (objId : ℕ) (uv : ℚ × ℚ) : List Entry → List Entry
  | [] => []
  | e :: es =>
      if e.meshId = objId then { e with mouse := uv } :: es
      else e :: setMouseFirst objId uv es

/-- The uniform updates of `onPointerMove` in `src/main.js` (and of the
closing revision in `src/unnamed/part_005`): every entry's ripple is hidden,
then, if the nearest hit exists and carries a UV, that UV is routed to the
entry owning the hit mesh. -/
def onPointerMove (es : List Entry) : List Hit → List Entry
  | [] => hideAll es
  | h :: _ =>
      match h.uv with
      | none => hideAll es
      | some uv => setMouseFirst h.objId uv (hideAll es)

/-- Number of entries whose `u_mouse` encodes an active ripple center. -/
def countActive (es : List Entry) : ℕ :=
  (es.filter fun e => (activeCenter e.mouse).isSome).length

/-- The locate result: `hits[0]` of the hit list the raycast service returns
for the registered meshes and the pointer ray (`raycaster.setFromCamera`
folds the camera transform into the service). -/
def locate (raycast : List ℕ → ℚ × ℚ → List Hit) (ndc : ℚ × ℚ)
    (es : List Entry) : Option Hit :=
  (raycast (es.map Entry.meshId) ndc).head?

/-- One full pointer-move step: raycast the registered meshes, then apply
the uniform updates of `onPointerMove`. -/
def pointerStep (raycast : List ℕ → ℚ × ℚ → List Hit) (ndc : ℚ × ℚ)
    (es : List Entry) : List Entry :=
  onPointerMove es (raycast (es.map Entry.meshId) ndc)

/-! ## The uniform override merge of `createOverlayRipple`

`src/src/shaders/overlayRipple.ts` (first revision, also both revisions in
`src/unnamed/part_002`) builds a fixed table of default uniforms and then
runs `for (const k in initial) if (uniforms[k]) uniforms[k].value =
initial[k]`: keys naming an existing uniform are overwritten, all other
keys are skipped.  Uniform values are embedded as a small sum type over
`ℚ`; the table is an association list in source order. -/

/-- A uniform value: scalar, 2-vector (`THREE.Vector2`) or 3-component
(`THREE.Vector3` / `THREE.Color`). -/
inductive UVal where
  | num : ℚ → UVal
  | vec2 : ℚ → ℚ → UVal
  | vec3 : ℚ → ℚ → ℚ → UVal
deriving DecidableEq

/-- First-match association-list lookup (JS property access on the
`uniforms` object literal). -/
def lookupU (k : String) : List (String × UVal) → Option UVal
  | [] => none
  | kv :: rest => if kv.1 = k then some kv.2 else lookupU k rest

/-- Overwrite the value stored at an existing key, leaving other keys (and
a missing key) untouched (`uniforms[k].value = initial[k]`). -/
def setUniform (k : String) (v : UVal) : List (String × UVal) → List (String × UVal)
  | [] => []
  | kv :: rest =>
      if kv.1 = k then (kv.1, v) :: rest
      else kv :: setUniform k v rest

/-- `if (initial) for (const k in initial) if (uniforms[k])
uniforms[k].value = initial[k]`: fold the override entries over the uniform
table, overwriting only keys that already exist. -/
def applyInitial (uniforms : List (String × UVal))
    (initial : List (String × UVal)) : List (String × UVal) :=
  initial.foldl
    (fun acc kv => if (lookupU kv.1 acc).isSome then setUniform kv.1 kv.2 acc else acc)
    uniforms

/-- The default uniform table of `createOverlayRipple` in
`src/src/shaders/overlayRipple.ts` (first revision), in source order. -/
def defaultUniforms : List (String × UVal) :=
  [("u_time", UVal.num 0),
   ("u_mouse", UVal.vec2 (-10) (-10)),
   ("u_mouseWorld", UVal.vec3 0 0 0),
   ("u_radius", UVal.num (3 / 10)),
   ("u_sigma", UVal.num (1 / 20)),
   ("u_speed", UVal.num 2),
   ("u_intensity", UVal.num 1),
   ("u_baseColor", UVal.vec3 (1 / 10) (1 / 10) (1 / 10)),
   ("u_rippleColor", UVal.vec3 1 1 1),
   ("u_worldRadiusMul", UVal.num (14 / 5)),
   ("u_useUV", UVal.num 1),
   ("u_mode", UVal.num 0)]

/-- The uniform table of the material returned by `createOverlayRipple`
for a given override object. -/
def createOverlayRippleUniforms (initial : List (String × UVal)) :
    List (String × UVal) :=
  applyInitial defaultUniforms initial

/-! ## Basic facts about the GLSL primitives -/

theorem glClamp_nonneg (x : ℝ) : 0 ≤ glClamp x 0 1 :=
  le_min (le_max_right x 0) zero_le_one

theorem glClamp_le_one (x : ℝ) : glClamp x 0 1 ≤ 1 :=
  min_le_right _ _

theorem glClamp_of_nonpos {x : ℝ} (h : x ≤ 0) : glClamp x 0 1 = 0 := by
  unfold glClamp
  rw [max_eq_right h, min_eq_left zero_le_one]

theorem glClamp_of_one_le {x : ℝ} (h : 1 ≤ x) : glClamp x 0 1 = 1 := by
  unfold glClamp
  rw [max_eq_left (zero_le_one.trans h), min_eq_right h]

theorem glClamp_mono {x y : ℝ} (h : x ≤ y) : glClamp x 0 1 ≤ glClamp y 0 1 :=
  min_le_min (max_le_max h le_rfl) le_rfl

theorem smoothstep_eq (e0 e1 x : ℝ) :
    smoothstep e0 e1 x =
      glClamp ((x - e0) / (e1 - e0)) 0 1 * glClamp ((x - e0) / (e1 - e0)) 0 1 *
        (3 - 2 * glClamp ((x - e0) / (e1 - e0)) 0 1) := rfl

theorem hermite_mono {a b : ℝ} (ha : 0 ≤ a) (hab : a ≤ b) (hb : b ≤ 1) :
    a * a * (3 - 2 * a) ≤ b * b * (3 - 2 * b) := by
  nlinarith [mul_nonneg (sub_nonneg.mpr hab) (mul_nonneg ha (sub_nonneg.mpr hb)),
    mul_nonneg (sub_nonneg.mpr hab)
      (mul_nonneg (sub_nonneg.mpr hab) (sub_nonneg.mpr hb)),
    mul_nonneg (sub_nonneg.mpr hab)
      (mul_nonneg ha (sub_nonneg.mpr (hab.trans hb))),
    mul_nonneg (sub_nonneg.mpr hab)
      (mul_nonneg (hab.trans' ha) (sub_nonneg.mpr hb))]

theorem smoothstep_nonneg (e0 e1 x : ℝ) : 0 ≤ smoothstep e0 e1 x := by
  rw [smoothstep_eq]
  have h0 := glClamp_nonneg ((x - e0) / (e1 - e0))
  have h1 := glClamp_le_one ((x - e0) / (e1 - e0))
  nlinarith

theorem smoothstep_le_one (e0 e1 x : ℝ) : smoothstep e0 e1 x ≤ 1 := by
  rw [smoothstep_eq]
  have h0 := glClamp_nonneg ((x - e0) / (e1 - e0))
  have h1 := glClamp_le_one ((x - e0) / (e1 - e0))
  nlinarith [mul_nonneg (mul_self_nonneg (1 - glClamp ((x - e0) / (e1 - e0)) 0 1))
    (by linarith : (0 : ℝ) ≤ 1 + 2 * glClamp ((x - e0) / (e1 - e0)) 0 1)]

theorem smoothstep_eq_zero {e0 e1 x : ℝ} (he : e0 < e1) (hx : x ≤ e0) :
    smoothstep e0 e1 x = 0 := by
  rw [smoothstep_eq,
    glClamp_of_nonpos
      (div_nonpos_of_nonpos_of_nonneg (by linarith) (by linarith))]
  ring

theorem smoothstep_eq_one {e0 e1 x : ℝ} (he : e0 < e1) (hx : e1 ≤ x) :
    smoothstep e0 e1 x = 1 := by
  rw [smoothstep_eq,
    glClamp_of_one_le ((one_le_div (by linarith)).mpr (by linarith))]
  ring

theorem smoothstep_mono {e0 e1 : ℝ} (he : e0 < e1) {x y : ℝ} (hxy : x ≤ y) :
    smoothstep e0 e1 x ≤ smoothstep e0 e1 y := by
  rw [smoothstep_eq, smoothstep_eq]
  have ht : glClamp ((x - e0) / (e1 - e0)) 0 1 ≤ glClamp ((y - e0) / (e1 - e0)) 0 1 :=
    glClamp_mono ((div_le_div_iff_of_pos_right (by linarith)).mpr (by linarith))
  exact hermite_mono (glClamp_nonneg _) ht (glClamp_le_one _)

theorem uvDist_nonneg (a b : ℝ × ℝ) : 0 ≤ uvDist a b :=
  Real.sqrt_nonneg _

theorem uvDist_self (a : ℝ × ℝ) : uvDist a a = 0 := by
  simp [uvDist]

/-! ## Facts about the Gaussian ring and the radial mask -/

theorem sigmaEps_pos : (0 : ℝ) < sigmaEps := by norm_num [sigmaEps]

theorem max_sigmaEps_pos (sigma : ℝ) : 0 < max sigma sigmaEps :=
  lt_of_lt_of_le sigmaEps_pos (le_max_right _ _)

theorem expsq_le_one (x : ℝ) : Real.exp (-0.5 * (x * x)) ≤ 1 :=
  Real.exp_le_one_iff.mpr (by nlinarith [mul_self_nonneg x])

theorem expsq_eq_one_iff (x : ℝ) : Real.exp (-0.5 * (x * x)) = 1 ↔ x = 0 := by
  rw [Real.exp_eq_one_iff]
  constructor
  · intro h
    have hx : x * x = 0 := by nlinarith
    exact mul_self_eq_zero.mp hx
  · intro h
    rw [h]
    ring

theorem gaussianRing_eq (dist sigma t speed fw : ℝ) :
    gaussianRing dist sigma t speed fw =
      Real.exp (-0.5 * (((dist - t * speed) / max sigma sigmaEps) *
          ((dist - t * speed) / max sigma sigmaEps))) * (1 - 0.5) +
      Real.exp (-0.5 * (((dist - t * speed) / max (sigma + fw) sigmaEps) *
          ((dist - t * speed) / max (sigma + fw) sigmaEps))) * 0.5 := rfl

theorem gaussianRing_pos (dist sigma t speed fw : ℝ) :
    0 < gaussianRing dist sigma t speed fw := by
  rw [gaussianRing_eq]
  have h1 := Real.exp_pos (-0.5 * (((dist - t * speed) / max sigma sigmaEps) *
    ((dist - t * speed) / max sigma sigmaEps)))
  have h2 := Real.exp_pos (-0.5 * (((dist - t * speed) / max (sigma + fw) sigmaEps) *
    ((dist - t * speed) / max (sigma + fw) sigmaEps)))
  nlinarith

theorem gaussianRing_le_one (dist sigma t speed fw : ℝ) :
    gaussianRing dist sigma t speed fw ≤ 1 := by
  rw [gaussianRing_eq]
  have h1 := expsq_le_one ((dist - t * speed) / max sigma sigmaEps)
  have h2 := expsq_le_one ((dist - t * speed) / max (sigma + fw) sigmaEps)
  nlinarith [Real.exp_pos (-0.5 * (((dist - t * speed) / max sigma sigmaEps) *
    ((dist - t * speed) / max sigma sigmaEps)))]

theorem gaussianRing_eq_one_iff (dist sigma t speed fw : ℝ) :
    gaussianRing dist sigma t speed fw = 1 ↔ dist = t * speed := by
  rw [gaussianRing_eq]
  constructor
  · intro h
    have h1 := expsq_le_one ((dist - t * speed) / max sigma sigmaEps)
    have h2 := expsq_le_one ((dist - t * speed) / max (sigma + fw) sigmaEps)
    have h1' : Real.exp (-0.5 * (((dist - t * speed) / max sigma sigmaEps) *
        ((dist - t * speed) / max sigma sigmaEps))) = 1 := by
      have h2p := Real.exp_pos (-0.5 * (((dist - t * speed) / max (sigma + fw) sigmaEps) *
        ((dist - t * speed) / max (sigma + fw) sigmaEps)))
      nlinarith
    have hx := (expsq_eq_one_iff _).mp h1'
    have hmax := (max_sigmaEps_pos sigma).ne'
    rcases div_eq_zero_iff.mp hx with h | h
    · linarith [sub_eq_zero.mp h]
    · exact absurd h hmax
  · intro h
    rw [h, sub_self, zero_div, zero_div]
    norm_num

theorem radialMask_mem (d r w : ℝ) : 0 ≤ radialMask d r w ∧ radialMask d r w ≤ 1 := by
  unfold radialMask
  constructor
  · linarith [smoothstep_le_one (r - w) (r + w) d]
  · linarith [smoothstep_nonneg (r - w) (r + w) d]

theorem radialMask_zero_of {d r w : ℝ} (hw : 0 < w) (hd : r + w ≤ d) :
    radialMask d r w = 0 := by
  unfold radialMask
  rw [smoothstep_eq_one (by linarith) hd]
  ring

theorem radialMask_one_of {d r w : ℝ} (hw : 0 < w) (hd : d ≤ r - w) :
    radialMask d r w = 1 := by
  unfold radialMask
  rw [smoothstep_eq_zero (by linarith) hd]
  ring

theorem radialMask_antitone {r w : ℝ} (hw : 0 < w) {d1 d2 : ℝ} (h : d1 ≤ d2) :
    radialMask d2 r w ≤ radialMask d1 r w := by
  unfold radialMask
  linarith [smoothstep_mono (show r - w < r + w by linarith) h]

/-! ## Claim theorems: the ring (C8, C3) and the mask (C4) -/

/-- C8: the divisions by `ringThickness` in `gaussianRing` are guarded by
flooring the deviation to the positive epsilon `1e-4`
(`max(sigma, 1e-4)` and `max(sigma + fw, 1e-4)`), so for every input —
including `sigma = 0` — both denominators are positive and the ring value
is a defined finite number in `[0, 1]`. -/
theorem gaussianRing_division_guarded (dist sigma t speed fw : ℝ) :
    sigmaEps ≤ max sigma sigmaEps ∧
    0 < max sigma sigmaEps ∧
    0 < max (sigma + fw) sigmaEps ∧
    0 ≤ gaussianRing dist sigma t speed fw ∧
    gaussianRing dist sigma t speed fw ≤ 1 :=
  ⟨le_max_right _ _, max_sigmaEps_pos sigma, max_sigmaEps_pos (sigma + fw),
    (gaussianRing_pos dist sigma t speed fw).le,
    gaussianRing_le_one dist sigma t speed fw⟩

theorem overlayRingRadius_val : overlayRingRadius 1 2 (3 / 10) = 1 / 5 := by
  unfold overlayRingRadius glMod
  rw [show (1 : ℝ) * 2 / (3 / 10) = 20 / 3 by norm_num,
    show ⌊(20 : ℝ) / 3⌋ = 6 by rw [Int.floor_eq_iff] <;> norm_num]
  norm_num

/-- C3, counterexample: in the ring of the first revision of
`src/src/shaders/overlayRipple.ts` the pulse radius is wrapped
(`mod(u_time * u_speed, u_radius)`), so at `t = 1`, `speed = 2`,
`radius = 0.3`, `sigma = 0.05` the ring value at
`distance = elapsedTime × speed = 2` is strictly below the value at
`distance = 0.2`: the maximum is not attained at `elapsedTime × speed`. -/
theorem overlayRingIntensity_not_max_at_ts :
    overlayRingIntensity 1 2 (3 / 10) (1 / 20) (ringCenterRadius 1 2) <
      overlayRingIntensity 1 2 (3 / 10) (1 / 20) (1 / 5) := by
  unfold overlayRingIntensity ringCenterRadius
  rw [overlayRingRadius_val]
  rw [show |(1 : ℝ) * 2 - 1 / 5| = 9 / 5 by rw [abs_of_nonneg] <;> norm_num,
    show |(1 : ℝ) / 5 - 1 / 5| = 0 by norm_num]
  rw [smoothstep_eq_one (by norm_num) (by norm_num),
    smoothstep_eq_zero (by norm_num) le_rfl]
  norm_num

/-- C3 (amended): for the `gaussianRing` evaluator of `src/main.js` and
`src/unnamed/part_005` (ring center `t × speed`, no wrapping) and all valid
parameters, the ring value lies in `[0, 1]` and attains its maximum `1`
exactly at `distance = elapsedTime × speed`.  (The claim as stated also
covers the wrapped revision of `overlayRipple.ts`, where it fails.) -/
theorem gaussianRing_range_max (sigma t speed fw : ℝ) (hsg : 0 < sigma)
    (hfw : 0 ≤ fw) (ht : 0 ≤ t) (hs : 0 ≤ speed) :
    gaussianRing (ringCenterRadius t speed) sigma t speed fw = 1 ∧
    ∀ dist, 0 ≤ dist →
      0 ≤ gaussianRing dist sigma t speed fw ∧
      gaussianRing dist sigma t speed fw ≤ 1 ∧
      (gaussianRing dist sigma t speed fw = 1 ↔ dist = ringCenterRadius t speed) := by
  refine ⟨(gaussianRing_eq_one_iff _ _ _ _ _).mpr rfl, ?_⟩
  intro dist _
  exact ⟨(gaussianRing_pos dist sigma t speed fw).le,
    gaussianRing_le_one dist sigma t speed fw,
    gaussianRing_eq_one_iff dist sigma t speed fw⟩

/-- Witness for C3 at `sigma = 1`, `t = 1`, `speed = 1`, `fw = 0`. -/
theorem gaussianRing_range_max_witness :
    gaussianRing (ringCenterRadius 1 1) 1 1 1 0 = 1 ∧
    0 ≤ gaussianRing 2 1 1 1 0 ∧ gaussianRing 2 1 1 1 0 ≤ 1 := by
  have h := gaussianRing_range_max 1 1 1 0 one_pos le_rfl zero_le_one zero_le_one
  exact ⟨h.1, (h.2 2 (by norm_num)).1, (h.2 2 (by norm_num)).2.1⟩

/-- C4: for every radius `r > 0` and anti-aliasing band `0 < w ≤ r`
(the band `fwidth(d) * 2.0` is a small fraction of the pixel footprint),
the `radialMask` of `src/main.js` is `1` at `distance = 0`, is monotonically
non-increasing in the distance, stays in `[0, 1]`, and is exactly `0` from
`radius + w` onwards. -/
theorem radialMask_shape (r w : ℝ) (hr : 0 < r) (hw : 0 < w) (hwr : w ≤ r) :
    radialMask 0 r w = 1 ∧
    (∀ d1 d2, d1 ≤ d2 → radialMask d2 r w ≤ radialMask d1 r w) ∧
    (∀ d, r + w ≤ d → radialMask d r w = 0) ∧
    (∀ d, 0 ≤ radialMask d r w ∧ radialMask d r w ≤ 1) := by
  refine ⟨radialMask_one_of hw (by linarith), ?_, ?_, ?_⟩
  · intro d1 d2 h
    exact radialMask_antitone hw h
  · intro d hd
    exact radialMask_zero_of hw hd
  · intro d
    exact radialMask_mem d r w

/-- Witness for C4 at `r = 1`, `w = 1/2`, evaluated at distances `0` and `2`. -/
theorem radialMask_shape_witness :
    radialMask 0 1 (1 / 2) = 1 ∧ radialMask 2 1 (1 / 2) = 0 := by
  have h := radialMask_shape 1 (1 / 2) one_pos (by norm_num) (by norm_num)
  exact ⟨h.1, h.2.2.1 2 (by norm_num)⟩

/-! ## Claim theorems: ring center radius (C1) -/

/-- C1, counterexample: the ring center radius of the first revision of
`src/src/shaders/overlayRipple.ts` is `mod(u_time * u_speed, u_radius)`;
at `t = 1`, `speed = 2`, `radius = 0.3` it equals `0.2`, not
`t × speed = 2` — that cited evaluator does reduce the radius modulo the
area radius. -/
theorem overlayRingRadius_wraps :
    overlayRingRadius 1 2 (3 / 10) ≠ ringCenterRadius 1 2 := by
  rw [overlayRingRadius_val]
  unfold ringCenterRadius
  norm_num

/-- C1 (amended): in the `gaussianRing` evaluator of `src/main.js` and
`src/unnamed/part_005` the ring center radius is exactly
`elapsedTime × speed`, is monotone in the elapsed time, and grows without
bound whenever `speed > 0`; the `overlayRipple.ts` revision instead wraps
it modulo `u_radius` (and the second `part_002` revision via
`fract(t × speed) × 0.7`). -/
theorem ringCenterRadius_spec (t speed : ℝ) (ht : 0 ≤ t) (hs : 0 ≤ speed) :
    ringCenterRadius t speed = t * speed ∧
    (∀ t', t ≤ t' → ringCenterRadius t speed ≤ ringCenterRadius t' speed) ∧
    (0 < speed → ∀ M : ℝ, ∃ t', 0 ≤ t' ∧ M < ringCenterRadius t' speed) := by
  refine ⟨rfl, ?_, ?_⟩
  · intro t' h
    exact mul_le_mul_of_nonneg_right h hs
  · intro hsp M
    refine ⟨(max M 0 + 1) / speed, ?_, ?_⟩
    · have h0 := le_max_right M 0
      exact div_nonneg (by linarith) hsp.le
    · unfold ringCenterRadius
      rw [div_mul_cancel₀ _ hsp.ne']
      have h1 := le_max_left M 0
      linarith

/-- Witness for C1 at `t = 2`, `speed = 3`, bound `M = 100`. -/
theorem ringCenterRadius_spec_witness :
    ringCenterRadius 2 3 = 2 * 3 ∧
    ∃ t', 0 ≤ t' ∧ (100 : ℝ) < ringCenterRadius t' 3 :=
  ⟨(ringCenterRadius_spec 2 3 (by norm_num) (by norm_num)).1,
    (ringCenterRadius_spec 2 3 (by norm_num) (by norm_num)).2.2 (by norm_num) 100⟩

/-! ## Claim theorems: intensity composition (C5) -/

theorem mainFragAmt_eq (u : FragUniforms) (vUv : ℝ × ℝ) (wA wR : ℝ) :
    mainFragAmt u vUv wA wR =
      radialMask (uvDist vUv u.u_mouse) u.u_radius wA *
        gaussianRing (uvDist vUv u.u_mouse) u.u_sigma u.u_time u.u_speed wR *
        u.u_intensity := rfl

theorem overlayFrag1Intensity_eq (t speed radius sigma intensity : ℝ)
    (vUv mouse : ℝ × ℝ) :
    overlayFrag1Intensity t speed radius sigma intensity vUv mouse =
      overlayRingIntensity t speed radius sigma (uvDist vUv mouse) *
        (1 - overlayRingRadius t speed radius / radius) *
        overlayFrag1Mask radius (uvDist vUv mouse) * intensity * 5 := rfl

theorem overlayRingRadiusZero : overlayRingRadius 0 2 (3 / 10) = 0 := by
  unfold overlayRingRadius glMod
  norm_num [Int.floor_zero]

/-- C5, counterexample: the fragment main of the first revision of
`src/src/shaders/overlayRipple.ts` multiplies the claimed product by the
extra factors `fadeFactor` and `5.0` (`finalIntensity = ringIntensity *
fadeFactor * mask * u_intensity * 5.0`); at `t = 0`, `speed = 2`,
`radius = 0.3`, `sigma = 0.05`, `intensity = 1`, with the query at the
active center, the output is `5`, while
`areaMask × ring × params.intensity = 1`. -/
theorem overlayFrag1_extra_scale :
    overlayFrag1Intensity 0 2 (3 / 10) (1 / 20) 1 (1 / 2, 1 / 2) (1 / 2, 1 / 2) ≠
      overlayFrag1Mask (3 / 10) (uvDist (1 / 2, 1 / 2) (1 / 2, 1 / 2)) *
        overlayRingIntensity 0 2 (3 / 10) (1 / 20)
          (uvDist (1 / 2, 1 / 2) (1 / 2, 1 / 2)) * 1 := by
  have hring : overlayRingIntensity 0 2 (3 / 10) (1 / 20) 0 = 1 := by
    unfold overlayRingIntensity
    rw [overlayRingRadiusZero, show |(0 : ℝ) - 0| = 0 by norm_num,
      smoothstep_eq_zero (by norm_num) le_rfl]
    norm_num
  have hmask : overlayFrag1Mask (3 / 10) 0 = 1 := by
    unfold overlayFrag1Mask
    rw [smoothstep_eq_zero (by norm_num) (by norm_num)]
    norm_num
  rw [overlayFrag1Intensity_eq, uvDist_self, overlayRingRadiusZero, hring, hmask]
  norm_num

theorem gaussianRingWrap_eq (dist sigma t speed fw : ℝ) :
    gaussianRingWrap dist sigma t speed fw =
      Real.exp (-0.5 * (((dist - part002RingCenter t speed) / max sigma sigmaEps) *
          ((dist - part002RingCenter t speed) / max sigma sigmaEps))) * (1 - 0.5) +
      Real.exp (-0.5 * (((dist - part002RingCenter t speed) / max (sigma + fw) sigmaEps) *
          ((dist - part002RingCenter t speed) / max (sigma + fw) sigmaEps))) * 0.5 := rfl

theorem gaussianRingWrap_pos (dist sigma t speed fw : ℝ) :
    0 < gaussianRingWrap dist sigma t speed fw := by
  rw [gaussianRingWrap_eq]
  have h1 := Real.exp_pos (-0.5 * (((dist - part002RingCenter t speed) / max sigma sigmaEps) *
    ((dist - part002RingCenter t speed) / max sigma sigmaEps)))
  have h2 := Real.exp_pos (-0.5 * (((dist - part002RingCenter t speed) / max (sigma + fw) sigmaEps) *
    ((dist - part002RingCenter t speed) / max (sigma + fw) sigmaEps)))
  nlinarith

/-- C5 (amended): in the deliberate overlay revision (second revision of
`src/unnamed/part_002`) the output intensity is exactly
`areaMask × ring × u_intensity` with no other scale factor, is
non-negative whenever `u_intensity` is, and the emitted RGB contribution is
`u_rippleColor × intensity`, composited with `THREE.AdditiveBlending` (the
material never replaces the base appearance); the debug revision of
`overlayRipple.ts` instead multiplies in `fadeFactor` and `5.0` and forces
a white color. -/
theorem part002_additive_overlay (u : FragUniforms) (vUv : ℝ × ℝ) (wA wR : ℝ)
    (hI : 0 ≤ u.u_intensity) :
    part002FragAmt u vUv wA wR =
      radialMask (uvDist vUv u.u_mouse) u.u_radius wA *
        gaussianRingWrap (uvDist vUv u.u_mouse) u.u_sigma u.u_time u.u_speed wR *
        u.u_intensity ∧
    0 ≤ part002FragAmt u vUv wA wR ∧
    part002FragColor u vUv wA wR =
      scale3 u.u_rippleColor (part002FragAmt u vUv wA wR) ∧
    part002Material.blending = BlendingMode.AdditiveBlending := by
  refine ⟨rfl, ?_, rfl, rfl⟩
  have hmask := (radialMask_mem (uvDist vUv u.u_mouse) u.u_radius wA).1
  have hring := (gaussianRingWrap_pos (uvDist vUv u.u_mouse) u.u_sigma u.u_time
    u.u_speed wR).le
  calc (0 : ℝ) = 0 * 0 * 0 := by ring
  _ ≤ radialMask (uvDist vUv u.u_mouse) u.u_radius wA *
        gaussianRingWrap (uvDist vUv u.u_mouse) u.u_sigma u.u_time u.u_speed wR *
        u.u_intensity := by
      apply mul_le_mul (mul_le_mul hmask hring le_rfl hmask) hI le_rfl
      exact mul_nonneg hmask hring
  _ = part002FragAmt u vUv wA wR := rfl

/-- Witness for C5 with unit intensity uniforms. -/
theorem part002_additive_overlay_witness :
    0 ≤ part002FragAmt ⟨0, (1 / 2, 1 / 2), 1 / 2, 1 / 10, 1, 1, (0, 0, 0), (1, 1, 1)⟩
        (1 / 2, 1 / 2) (1 / 100) 0 ∧
    part002Material.blending = BlendingMode.AdditiveBlending :=
  ⟨(part002_additive_overlay ⟨0, (1 / 2, 1 / 2), 1 / 2, 1 / 10, 1, 1, (0, 0, 0), (1, 1, 1)⟩
      (1 / 2, 1 / 2) (1 / 100) 0 zero_le_one).2.1,
    (part002_additive_overlay ⟨0, (1 / 2, 1 / 2), 1 / 2, 1 / 10, 1, 1, (0, 0, 0), (1, 1, 1)⟩
      (1 / 2, 1 / 2) (1 / 100) 0 zero_le_one).2.2.2⟩

/-! ## Claim theorems: invalid parameters (C6) -/

/-- C6, counterexample: a negative `ringThickness` does not yield a zero
field in `src/main.js`: with `u_sigma = -1` (and otherwise valid
parameters `radius = 0.5`, `speed = 0`, `intensity = 1`), the intensity at
the active center at `t = 0` is `1`, not `0` — the sigma is floored to
`1e-4`, not rejected. -/
theorem negative_sigma_not_zero_field :
    mainFragAmt ⟨0, (1 / 2, 1 / 2), 1 / 2, -1, 0, 1, (0, 0, 0), (1, 1, 1)⟩
      (1 / 2, 1 / 2) (1 / 100) 0 ≠ 0 := by
  have hstep : mainFragAmt ⟨0, (1 / 2, 1 / 2), 1 / 2, -1, 0, 1, (0, 0, 0), (1, 1, 1)⟩
      (1 / 2, 1 / 2) (1 / 100) 0 =
      radialMask (uvDist (1 / 2, 1 / 2) (1 / 2, 1 / 2)) (1 / 2) (1 / 100) *
        gaussianRing (uvDist (1 / 2, 1 / 2) (1 / 2, 1 / 2)) (-1) 0 0 0 * 1 := rfl
  rw [hstep, uvDist_self]
  rw [radialMask_one_of (by norm_num) (by norm_num)]
  rw [gaussianRing_eq]
  norm_num

/-- C6 (amended): the evaluator of `src/main.js` yields an identically zero
field for an invalid radius once `radius + w ≤ 0` (in particular any
`radius < 0` with the anti-aliasing band at most `|radius|`), and for every
parameter choice the sigma divisions are guarded by the positive floor
`max(·, 1e-4)`, so no division by zero occurs; however negative
`ringThickness` or negative `speed` are not zeroed (see the
counterexample). -/
theorem invalid_radius_zero_field (u : FragUniforms) (vUv : ℝ × ℝ) (wA wR : ℝ)
    (hw : 0 < wA) (hrad : u.u_radius + wA ≤ 0) :
    mainFragAmt u vUv wA wR = 0 ∧
    0 < max u.u_sigma sigmaEps ∧ 0 < max (u.u_sigma + wR) sigmaEps := by
  refine ⟨?_, max_sigmaEps_pos _, max_sigmaEps_pos _⟩
  rw [mainFragAmt_eq,
    radialMask_zero_of hw (hrad.trans (uvDist_nonneg vUv u.u_mouse))]
  ring

/-- Witness for C6 at `radius = -1`, band `1/2`. -/
theorem invalid_radius_zero_field_witness :
    mainFragAmt ⟨0, (0, 0), -1, 1 / 10, 1, 1, (0, 0, 0), (1, 1, 1)⟩
      (1 / 2, 1 / 2) (1 / 2) 0 = 0 :=
  (invalid_radius_zero_field ⟨0, (0, 0), -1, 1 / 10, 1, 1, (0, 0, 0), (1, 1, 1)⟩
    (1 / 2, 1 / 2) (1 / 2) 0 (by norm_num) (by norm_num)).1

/-! ## Claim theorems: inactive center (C7) -/

/-- C7: when a surface's active center is `None` — encoded by the
`u_mouse = (-10, -10)` sentinel the pointer handler writes on a miss — the
evaluator yields intensity `0` at every on-surface query coordinate:
the `part_005` revision by its explicit `u_mouse.x < 0.0` branch (which
also returns the unmodified base color), and `src/main.js` because every
UV in `[0, 1]²` is at distance at least `10` from the sentinel, far beyond
any radius with `radius + w ≤ 10`. -/
theorem inactive_center_zero_intensity (u : FragUniforms) (vUv : ℝ × ℝ)
    (wA wR : ℝ) (hm : u.u_mouse = (-10, -10))
    (hx0 : 0 ≤ vUv.1) (hx1 : vUv.1 ≤ 1) (hy0 : 0 ≤ vUv.2) (hy1 : vUv.2 ≤ 1)
    (hw : 0 < wA) (hr : u.u_radius + wA ≤ 10) :
    part005FragAmt u vUv wA wR = 0 ∧
    part005FragColor u vUv wA wR = u.u_baseColor ∧
    mainFragAmt u vUv wA wR = 0 := by
  have hlt : u.u_mouse.1 < 0 := by
    rw [hm]
    norm_num
  refine ⟨?_, ?_, ?_⟩
  · unfold part005FragAmt
    rw [if_pos hlt]
  · unfold part005FragColor
    rw [if_pos hlt]
  · have hform : uvDist vUv ((-10 : ℝ), (-10 : ℝ)) =
        Real.sqrt ((vUv.1 + 10) ^ 2 + (vUv.2 + 10) ^ 2) := by
      unfold uvDist
      norm_num
    have hd : (10 : ℝ) ≤ uvDist vUv ((-10 : ℝ), (-10 : ℝ)) := by
      rw [hform]
      have h1 : (100 : ℝ) ≤ (vUv.1 + 10) ^ 2 + (vUv.2 + 10) ^ 2 := by
        nlinarith [sq_nonneg (vUv.2 + 10)]
      have h2 := Real.sqrt_le_sqrt h1
      have h3 : Real.sqrt 100 = 10 := by
        rw [show (100 : ℝ) = 10 ^ 2 by norm_num, Real.sqrt_sq (by norm_num)]
      linarith
    rw [mainFragAmt_eq, hm, radialMask_zero_of hw (by linarith)]
    ring

/-- Witness for C7 with the `src/main.js` default uniforms
(`radius = 0.5`, `sigma = 0.1`, `speed = 0`, `intensity = 2`) and the
hidden mouse sentinel. -/
theorem inactive_center_zero_intensity_witness :
    part005FragAmt ⟨0, (-10, -10), 1 / 2, 1 / 10, 0, 2, (0, 0, 0), (1, 1, 1)⟩
      (1 / 2, 1 / 2) (1 / 100) 0 = 0 ∧
    mainFragAmt ⟨0, (-10, -10), 1 / 2, 1 / 10, 0, 2, (0, 0, 0), (1, 1, 1)⟩
      (1 / 2, 1 / 2) (1 / 100) 0 = 0 := by
  have h := inactive_center_zero_intensity
    ⟨0, (-10, -10), 1 / 2, 1 / 10, 0, 2, (0, 0, 0), (1, 1, 1)⟩ (1 / 2, 1 / 2)
    (1 / 100) 0 rfl (by norm_num) (by norm_num) (by norm_num) (by norm_num)
    (by norm_num) (by norm_num)
  exact ⟨h.1, h.2.2⟩

/-! ## Facts about the pointer-move step -/

theorem mouse_of_mem_hideAll {es : List Entry} {e : Entry} (h : e ∈ hideAll es) :
    e.mouse = ((-10 : ℚ), (-10 : ℚ)) := by
  unfold hideAll at h
  obtain ⟨a, _, rfl⟩ := List.mem_map.mp h
  rfl

theorem activeCenter_sentinel : activeCenter ((-10 : ℚ), (-10 : ℚ)) = none := by
  unfold activeCenter
  norm_num

theorem countActive_cons (e : Entry) (l : List Entry) :
    countActive (e :: l) =
      (if (activeCenter e.mouse).isSome then 1 else 0) + countActive l := by
  unfold countActive
  by_cases h : (activeCenter e.mouse).isSome
  · simp [List.filter_cons, h, Nat.add_comm]
  · simp [List.filter_cons, h]

theorem countActive_eq_zero {l : List Entry}
    (hl : ∀ e ∈ l, e.mouse = ((-10 : ℚ), (-10 : ℚ))) : countActive l = 0 := by
  induction l with
  | nil => rfl
  | cons a l ih =>
      rw [countActive_cons, hl a (List.mem_cons_self a l), activeCenter_sentinel]
      simp only [Option.isSome_none, Bool.false_eq_true, if_false, Nat.zero_add]
      exact ih fun e he => hl e (List.mem_cons_of_mem a he)

theorem mem_setMouseFirst {o : ℕ} {uv : ℚ × ℚ} {l : List Entry} {e : Entry}
    (h : e ∈ setMouseFirst o uv l) :
    e ∈ l ∨ (e.meshId = o ∧ e.mouse = uv) := by
  induction l with
  | nil => cases h
  | cons a l ih =>
      unfold setMouseFirst at h
      by_cases ha : a.meshId = o
      · rw [if_pos ha] at h
        rcases List.mem_cons.mp h with h1 | h1
        · right
          rw [h1]
          exact ⟨ha, rfl⟩
        · exact Or.inl (List.mem_cons_of_mem a h1)
      · rw [if_neg ha] at h
        rcases List.mem_cons.mp h with h1 | h1
        · exact Or.inl (h1 ▸ List.mem_cons_self a l)
        · rcases ih h1 with h2 | h2
          · exact Or.inl (List.mem_cons_of_mem a h2)
          · exact Or.inr h2

theorem countActive_setMouseFirst_le (o : ℕ) (uv : ℚ × ℚ) (l : List Entry)
    (hl : ∀ e ∈ l, e.mouse = ((-10 : ℚ), (-10 : ℚ))) :
    countActive (setMouseFirst o uv l) ≤ 1 := by
  induction l with
  | nil => exact Nat.zero_le 1
  | cons a l ih =>
      unfold setMouseFirst
      by_cases ha : a.meshId = o
      · rw [if_pos ha, countActive_cons,
          countActive_eq_zero fun e he => hl e (List.mem_cons_of_mem a he)]
        split <;> norm_num
      · rw [if_neg ha, countActive_cons, hl a (List.mem_cons_self a l),
          activeCenter_sentinel]
        simp only [Option.isSome_none, Bool.false_eq_true, if_false, Nat.zero_add]
        exact ih fun e he => hl e (List.mem_cons_of_mem a he)

theorem setMouseFirst_hits (o : ℕ) (uv : ℚ × ℚ) (l : List Entry)
    (ho : o ∈ l.map Entry.meshId) :
    ∃ e ∈ setMouseFirst o uv l, e.meshId = o ∧ e.mouse = uv := by
  induction l with
  | nil => cases ho
  | cons a l ih =>
      unfold setMouseFirst
      by_cases ha : a.meshId = o
      · rw [if_pos ha]
        exact ⟨{ a with mouse := uv }, List.mem_cons_self _ _, ha, rfl⟩
      · rw [if_neg ha]
        have ho' : o ∈ l.map Entry.meshId := by
          rcases List.mem_map.mp ho with ⟨b, hb, hbo⟩
          rcases List.mem_cons.mp hb with h1 | h1
          · exact absurd (h1 ▸ hbo) ha
          · exact List.mem_map.mpr ⟨b, h1, hbo⟩
        obtain ⟨e, he, h1, h2⟩ := ih ho'
        exact ⟨e, List.mem_cons_of_mem a he, h1, h2⟩

theorem meshIds_hideAll (es : List Entry) :
    (hideAll es).map Entry.meshId = es.map Entry.meshId := by
  induction es with
  | nil => rfl
  | cons a es ih =>
      unfold hideAll at ih ⊢
      simp only [List.map_cons, ih]

theorem meshIds_setMouseFirst (o : ℕ) (uv : ℚ × ℚ) (l : List Entry) :
    (setMouseFirst o uv l).map Entry.meshId = l.map Entry.meshId := by
  induction l with
  | nil => rfl
  | cons a l ih =>
      unfold setMouseFirst
      by_cases ha : a.meshId = o
      · rw [if_pos ha]
        rfl
      · rw [if_neg ha]
        simp only [List.map_cons, ih]

theorem onPointerMove_nil (es : List Entry) : onPointerMove es [] = hideAll es := rfl

theorem onPointerMove_cons_none (es : List Entry) (h : Hit) (hs : List Hit)
    (huv : h.uv = none) : onPointerMove es (h :: hs) = hideAll es := by
  show (match h.uv with
    | none => hideAll es
    | some uv => setMouseFirst h.objId uv (hideAll es)) = hideAll es
  rw [huv]

theorem onPointerMove_cons_some (es : List Entry) (h : Hit) (hs : List Hit)
    (uv : ℚ × ℚ) (huv : h.uv = some uv) :
    onPointerMove es (h :: hs) = setMouseFirst h.objId uv (hideAll es) := by
  show (match h.uv with
    | none => hideAll es
    | some uv => setMouseFirst h.objId uv (hideAll es)) =
    setMouseFirst h.objId uv (hideAll es)
  rw [huv]

theorem meshIds_onPointerMove (es : List Entry) (hits : List Hit) :
    (onPointerMove es hits).map Entry.meshId = es.map Entry.meshId := by
  cases hits with
  | nil => rw [onPointerMove_nil]; exact meshIds_hideAll es
  | cons h hs =>
      cases huv : h.uv with
      | none => rw [onPointerMove_cons_none es h hs huv]; exact meshIds_hideAll es
      | some uv =>
          rw [onPointerMove_cons_some es h hs uv huv, meshIds_setMouseFirst,
            meshIds_hideAll]

theorem hideAll_congr {es es' : List Entry}
    (h : es.map Entry.meshId = es'.map Entry.meshId) : hideAll es = hideAll es' := by
  have key : ∀ l : List Entry,
      hideAll l = (l.map Entry.meshId).map fun i => Entry.mk i (-10, -10) := by
    intro l
    induction l with
    | nil => rfl
    | cons a l ih =>
        unfold hideAll at ih ⊢
        simp only [List.map_cons, ih]
  rw [key, key, h]

theorem onPointerMove_congr {es es' : List Entry} (hits : List Hit)
    (h : es.map Entry.meshId = es'.map Entry.meshId) :
    onPointerMove es hits = onPointerMove es' hits := by
  cases hits with
  | nil => rw [onPointerMove_nil, onPointerMove_nil, hideAll_congr h]
  | cons hh hs =>
      cases huv : hh.uv with
      | none =>
          rw [onPointerMove_cons_none es hh hs huv,
            onPointerMove_cons_none es' hh hs huv, hideAll_congr h]
      | some uv =>
          rw [onPointerMove_cons_some es hh hs uv huv,
            onPointerMove_cons_some es' hh hs uv huv, hideAll_congr h]

/-! ## Claim theorems: exclusivity of the active center (C2) -/

/-- C2: after any single pointer-move update over any entry registry and
any raycast result, at most one entry has an active ripple center; on a
miss every entry's center is cleared; on a hit only an entry owning the hit
mesh can be active, and it holds the hit's UV; and when the nearest hit
carries a UV whose owner is registered, that owner's center is set to the
hit UV. -/
theorem onPointerMove_exclusive (es : List Entry) (hits : List Hit) :
    countActive (onPointerMove es hits) ≤ 1 ∧
    (hits = [] → ∀ e ∈ onPointerMove es hits, activeCenter e.mouse = none) ∧
    (∀ h hs, hits = h :: hs → ∀ e ∈ onPointerMove es hits,
        (activeCenter e.mouse).isSome → e.meshId = h.objId ∧ h.uv = some e.mouse) ∧
    (∀ h hs uv, hits = h :: hs → h.uv = some uv → 0 ≤ uv.1 →
        h.objId ∈ es.map Entry.meshId →
        ∃ e ∈ onPointerMove es hits,
          activeCenter e.mouse = some uv ∧ e.meshId = h.objId) := by
  refine ⟨?_, ?_, ?_, ?_⟩
  · cases hits with
    | nil =>
        rw [onPointerMove_nil,
          countActive_eq_zero fun e => mouse_of_mem_hideAll]
        exact Nat.zero_le 1
    | cons h hs =>
        cases huv : h.uv with
        | none =>
            rw [onPointerMove_cons_none es h hs huv,
              countActive_eq_zero fun e => mouse_of_mem_hideAll]
            exact Nat.zero_le 1
        | some uv =>
            rw [onPointerMove_cons_some es h hs uv huv]
            exact countActive_setMouseFirst_le h.objId uv (hideAll es)
              fun e => mouse_of_mem_hideAll
  · intro hnil e he
    rw [hnil, onPointerMove_nil] at he
    rw [mouse_of_mem_hideAll he]
    exact activeCenter_sentinel
  · intro h hs hcons e he hact
    rw [hcons] at he
    cases huv : h.uv with
    | none =>
        rw [onPointerMove_cons_none es h hs huv] at he
        rw [mouse_of_mem_hideAll he, activeCenter_sentinel] at hact
        cases hact
    | some uv =>
        rw [onPointerMove_cons_some es h hs uv huv] at he
        rcases mem_setMouseFirst he with h1 | h1
        · rw [mouse_of_mem_hideAll h1, activeCenter_sentinel] at hact
          cases hact
        · exact ⟨h1.1, by rw [h1.2]⟩
  · intro h hs uv hcons huv huv1 hobj
    rw [hcons, onPointerMove_cons_some es h hs uv huv]
    have hobj' : h.objId ∈ (hideAll es).map Entry.meshId := by
      rw [meshIds_hideAll]
      exact hobj
    obtain ⟨e, he, h1, h2⟩ := setMouseFirst_hits h.objId uv (hideAll es) hobj'
    refine ⟨e, he, ?_, h1⟩
    rw [h2]
    unfold activeCenter
    rw [if_neg (not_lt.mpr huv1)]

/-- Witness for C2: two entries, a hit on mesh `0` with UV `(1/2, 1/2)`. -/
theorem onPointerMove_exclusive_witness :
    countActive (onPointerMove [⟨0, (0, 0)⟩, ⟨1, (3, 3)⟩]
        [⟨0, some (1 / 2, 1 / 2)⟩]) ≤ 1 ∧
    ∃ e ∈ onPointerMove [⟨0, (0, 0)⟩, ⟨1, (3, 3)⟩] [⟨0, some (1 / 2, 1 / 2)⟩],
      activeCenter e.mouse = some (1 / 2, 1 / 2) ∧ e.meshId = 0 :=
  ⟨(onPointerMove_exclusive [⟨0, (0, 0)⟩, ⟨1, (3, 3)⟩] [⟨0, some (1 / 2, 1 / 2)⟩]).1,
    (onPointerMove_exclusive [⟨0, (0, 0)⟩, ⟨1, (3, 3)⟩]
        [⟨0, some (1 / 2, 1 / 2)⟩]).2.2.2
      ⟨0, some (1 / 2, 1 / 2)⟩ [] (1 / 2, 1 / 2) rfl rfl (by norm_num) (by decide)⟩

/-! ## Claim theorems: determinism and idempotence of locate (C9) -/

/-- C9: the locate step is deterministic and idempotent: it is a pure
function of the pointer ray, the raycast service (which folds in the camera
transform) and the registered mesh set, and since the pointer-move update
writes only the `u_mouse` uniforms — never the mesh set — running the step
again with the same inputs returns the same hit and leaves the state
unchanged. -/
theorem locate_deterministic_idempotent (raycast : List ℕ → ℚ × ℚ → List Hit)
    (ndc : ℚ × ℚ) (es : List Entry) :
    locate raycast ndc (pointerStep raycast ndc es) = locate raycast ndc es ∧
    pointerStep raycast ndc (pointerStep raycast ndc es) =
      pointerStep raycast ndc es := by
  have hm : (pointerStep raycast ndc es).map Entry.meshId = es.map Entry.meshId :=
    meshIds_onPointerMove es (raycast (es.map Entry.meshId) ndc)
  constructor
  · unfold locate
    rw [hm]
  · show onPointerMove (pointerStep raycast ndc es)
        (raycast ((pointerStep raycast ndc es).map Entry.meshId) ndc) =
      pointerStep raycast ndc es
    rw [hm]
    exact onPointerMove_congr (raycast (es.map Entry.meshId) ndc) hm

/-! ## Facts about the uniform override merge -/

theorem lookupU_cons (k : String) (kv : String × UVal)
    (rest : List (String × UVal)) :
    lookupU k (kv :: rest) = if kv.1 = k then some kv.2 else lookupU k rest := rfl

theorem setUniform_cons (k : String) (v : UVal) (kv : String × UVal)
    (rest : List (String × UVal)) :
    setUniform k v (kv :: rest) =
      if kv.1 = k then (kv.1, v) :: rest else kv :: setUniform k v rest := rfl

theorem lookupU_setUniform_self {k : String} {v : UVal}
    {us : List (String × UVal)} (h : (lookupU k us).isSome) :
    lookupU k (setUniform k v us) = some v := by
  induction us with
  | nil => simp [lookupU] at h
  | cons kv rest ih =>
      by_cases hk : kv.1 = k
      · simp [setUniform_cons, hk, lookupU_cons]
      · rw [lookupU_cons, if_neg hk] at h
        simp [setUniform_cons, hk, lookupU_cons, ih h]

theorem lookupU_setUniform_ne {k' k : String} (hne : k' ≠ k) (v : UVal)
    (us : List (String × UVal)) :
    lookupU k' (setUniform k v us) = lookupU k' us := by
  induction us with
  | nil => rfl
  | cons kv rest ih =>
      by_cases hk : kv.1 = k
      · have hkk' : ¬k = k' := fun hh => hne hh.symm
        simp [setUniform_cons, hk, lookupU_cons, hkk']
      · simp [setUniform_cons, hk, lookupU_cons, ih]

theorem lookupU_eq_none_of_not_mem {k : String} {l : List (String × UVal)}
    (h : k ∉ l.map Prod.fst) : lookupU k l = none := by
  induction l with
  | nil => rfl
  | cons kv rest ih =>
      rw [lookupU_cons,
        if_neg fun heq => h (List.mem_map.mpr ⟨kv, List.mem_cons_self kv rest, heq⟩)]
      exact ih fun hmem => h (List.mem_cons_of_mem _ hmem)

theorem applyInitial_lookup (initial : List (String × UVal))
    (hnd : (initial.map Prod.fst).Nodup) :
    ∀ (us : List (String × UVal)) (k : String),
      lookupU k (applyInitial us initial) =
        if (lookupU k us).isSome ∧ (lookupU k initial).isSome then lookupU k initial
        else lookupU k us := by
  induction initial with
  | nil =>
      intro us k
      simp [applyInitial, lookupU]
  | cons a rest ih =>
      intro us k
      rw [List.map_cons, List.nodup_cons] at hnd
      have hstep : applyInitial us (a :: rest) =
          applyInitial (if (lookupU a.1 us).isSome then setUniform a.1 a.2 us else us)
            rest := rfl
      rw [hstep, ih hnd.2]
      by_cases hak : a.1 = k
      · have hrest : lookupU k rest = none :=
          lookupU_eq_none_of_not_mem (hak ▸ hnd.1)
        have hcons : lookupU k (a :: rest) = some a.2 := by
          rw [lookupU_cons, if_pos hak]
        rw [hrest, hcons]
        by_cases hus : (lookupU k us).isSome
        · have hus' : (lookupU a.1 us).isSome := by rw [hak]; exact hus
          rw [if_pos hus', hak, lookupU_setUniform_self hus]
          simp [hus]
        · have hus' : ¬(lookupU a.1 us).isSome = true := by rw [hak]; exact hus
          rw [if_neg hus']
          simp [hus]
      · have hcons : lookupU k (a :: rest) = lookupU k rest := by
          rw [lookupU_cons, if_neg hak]
        have hpres : lookupU k (if (lookupU a.1 us).isSome then setUniform a.1 a.2 us
            else us) = lookupU k us := by
          split
          · exact lookupU_setUniform_ne (fun h => hak h.symm) a.2 us
          · rfl
        rw [hpres, hcons]

/-! ## Claim theorems: createOverlayRipple overrides (C10) -/

/-- C10: for every override object (a finite map, so its keys are distinct)
the uniform table returned by `createOverlayRipple` agrees with the
defaults everywhere except exactly at override keys that name an existing
uniform, which take the override value; override keys that name no uniform
are silently ignored (the lookup stays `none` and the merge is total, so
no error is raised). -/
theorem createOverlayRipple_override_semantics (initial : List (String × UVal))
    (hnd : (initial.map Prod.fst).Nodup) (k : String) :
    lookupU k (createOverlayRippleUniforms initial) =
      if (lookupU k defaultUniforms).isSome ∧ (lookupU k initial).isSome then
        lookupU k initial
      else lookupU k defaultUniforms :=
  applyInitial_lookup initial hnd defaultUniforms k

/-- Witness for C10: overriding `u_radius` takes effect, an unknown key is
ignored, and an untouched uniform keeps its default. -/
theorem createOverlayRipple_override_semantics_witness :
    lookupU "u_radius"
        (createOverlayRippleUniforms
          [("u_radius", UVal.num 1), ("bogus", UVal.num 7)]) = some (UVal.num 1) ∧
    lookupU "bogus"
        (createOverlayRippleUniforms
          [("u_radius", UVal.num 1), ("bogus", UVal.num 7)]) = none ∧
    lookupU "u_speed"
        (createOverlayRippleUniforms
          [("u_radius", UVal.num 1), ("bogus", UVal.num 7)]) = some (UVal.num 2) := by
  refine ⟨?_, ?_, ?_⟩
  · rw [createOverlayRipple_override_semantics
      [("u_radius", UVal.num 1), ("bogus", UVal.num 7)] (by decide) "u_radius"]
    decide
  · rw [createOverlayRipple_override_semantics
      [("u_radius", UVal.num 1), ("bogus", UVal.num 7)] (by decide) "bogus"]
    decide
  · rw [createOverlayRipple_override_semantics
      [("u_radius", UVal.num 1), ("bogus", UVal.num 7)] (by decide) "u_speed"]
    decide

end CarbonChunk
